import Mathlib

/-!
Verification of the shell-utilities repository (two Python scripts):
`src/git.py` (a Git status prompt decorator) and `src/prompt.py` (a
working-directory path truncator).

The Python code is shallowly embedded: text is `List Char`, Python
exceptions become an explicit `PyErr` error type carried in `Except`,
and every definition is translated directly from the corresponding
source function (file and line numbers are cited in the doc comments).
-/

set_option autoImplicit false

namespace ShellUtilities

/-- Python exception kinds that the two scripts can raise: `KeyError`
(missing dict / environment key), `IndexError` (sequence index out of
range), `ValueError` (e.g. `str.index` not finding its argument, or a
malformed `dict()` initializer / `int()` argument), and
`UnboundLocalError` (a local variable referenced before assignment). -/
inductive PyErr where
  | keyError
  | indexError
  | valueError
  | unboundLocalError
  deriving DecidableEq

/-- Decidable equality for `Except`, so that concrete runs of the
embedded functions can be checked by `decide`. -/
instance {ε α : Type} [DecidableEq ε] [DecidableEq α] : DecidableEq (Except ε α)
  | .error a, .error b =>
      if h : a = b then .isTrue (h ▸ rfl)
      else .isFalse (fun hh => h (Except.error.inj hh))
  | .error _, .ok _ => .isFalse Except.noConfusion
  | .ok _, .error _ => .isFalse Except.noConfusion
  | .ok a, .ok b =>
      if h : a = b then .isTrue (h ▸ rfl)
      else .isFalse (fun hh => h (Except.ok.inj hh))

/-- Convert a string literal to the `List Char` representation used for
all embedded Python text. -/
def chars (s : String) : List Char := s.toList

/-- Characters treated as whitespace by Python's `str.split()`,
`str.strip()` and friends. -/
def pyIsSpace (c : Char) : Bool :=
  c == ' ' || c == '\t' || c == '\n' || c == '\r' || c == '\x0b' || c == '\x0c'

/-- Python `str.strip()` with no arguments: remove leading and trailing
whitespace. -/
def pyStrip (s : List Char) : List Char :=
  ((s.dropWhile pyIsSpace).reverse.dropWhile pyIsSpace).reverse

/-- Python `str.split(sep)` for a one-character separator: split on every
occurrence of `sep`, keeping empty fields (`''.split(sep) == ['']`). -/
def splitOn (sep : Char) : List Char → List (List Char)
  | [] => [[]]
  | c :: rest =>
      if c == sep then [] :: splitOn sep rest
      else
        match splitOn sep rest with
        | [] => [[c]]
        | t :: ts => (c :: t) :: ts

/-- Worker for `pySplitWs`: `acc` holds the (reversed) characters of the
token currently being read. -/
def splitWsGo : List Char → List Char → List (List Char)
  | [], acc => if acc.isEmpty then [] else [acc.reverse]
  | c :: rest, acc =>
      if pyIsSpace c then
        if acc.isEmpty then splitWsGo rest [] else acc.reverse :: splitWsGo rest []
      else splitWsGo rest (c :: acc)

/-- Python `str.split()` with no arguments: split on runs of whitespace,
dropping empty tokens. -/
def pySplitWs (s : List Char) : List (List Char) := splitWsGo s []

/-- Python `str.lstrip('# ')` as used in `src/git.py:70`: remove every
leading character that is `'#'` or `' '`. -/
def pyLstripHashSpace (s : List Char) : List Char :=
  s.dropWhile (fun c => c == '#' || c == ' ')

/-- Python `str.split(maxsplit=1)` (whitespace separator, at most one
split): returns `[]`, `[token]`, or `[token, remainder]`, where the
remainder keeps its internal and trailing whitespace verbatim. -/
def pySplitMax1 (s : List Char) : List (List Char) :=
  match s.dropWhile pyIsSpace with
  | [] => []
  | c :: rest =>
      let tok := c :: rest.takeWhile (fun x => !pyIsSpace x)
      let remainder := (rest.dropWhile (fun x => !pyIsSpace x)).dropWhile pyIsSpace
      if remainder.isEmpty then [tok] else [tok, remainder]

/-- Boolean test that `p` is an initial segment of `s`. -/
def isLeadOf : List Char → List Char → Bool
  | [], _ => true
  | _ :: _, [] => false
  | a :: as, b :: bs => a == b && isLeadOf as bs

/-- Boolean test that `p` occurs as a contiguous substring of `s`. -/
def occursIn (p : List Char) : List Char → Bool
  | [] => p.isEmpty
  | c :: rest => isLeadOf p (c :: rest) || occursIn p rest

/-- Python `sep.join(pieces)` for a one-character separator. -/
def joinOn (sep : Char) : List (List Char) → List Char
  | [] => []
  | [x] => x
  | x :: xs => x ++ sep :: joinOn sep xs

/-- Numeric value of a string of decimal digit characters. -/
def digitsVal (l : List Char) : Nat :=
  l.foldl (fun a c => a * 10 + (c.toNat - '0'.toNat)) 0

/-- Boolean test that a character is a decimal digit. -/
def isDigitCh (c : Char) : Bool :=
  ['0', '1', '2', '3', '4', '5', '6', '7', '8', '9'].contains c

/-- Boolean test that every character is a decimal digit. -/
def allDigits (l : List Char) : Bool :=
  l.all isDigitCh

/-- Python `int(s)` restricted to the shapes the scripts can feed it:
optional surrounding whitespace, an optional single `+`/`-` sign, then a
non-empty run of decimal digits; anything else raises `ValueError`. -/
def pyInt (s : List Char) : Except PyErr Int :=
  let t := pyStrip s
  if t.head? = some '+' then
    if !(t.drop 1).isEmpty && allDigits (t.drop 1) then
      .ok (digitsVal (t.drop 1))
    else .error .valueError
  else if t.head? = some '-' then
    if !(t.drop 1).isEmpty && allDigits (t.drop 1) then
      .ok (-(digitsVal (t.drop 1) : Int))
    else .error .valueError
  else if !t.isEmpty && allDigits t then .ok (digitsVal t)
  else .error .valueError

/-- Python dict lookup `d.get(k)` for a dict built from an association
list where a later binding of the same key overwrites an earlier one. -/
def pyDictGet (d : List (List Char × List Char)) (k : List Char) : Option (List Char) :=
  d.foldl (fun acc p => if p.1 = k then some p.2 else acc) none

/-! ### Embedding of `src/git.py` -/

/-- Grouped Git response: a dict from line-type tag (first character) to
the lines carrying that tag, in insertion order. -/
abbrev GroupedDict := List (Char × List (List Char))

/-- Dict update `d[p] += [e]` / `d[p] = [e]` from
`src/git.py:49-52`: append `e` to the group keyed `p`, creating the
group at the end if absent. -/
def dictAppend : GroupedDict → Char → List Char → GroupedDict
  | [], p, e => [(p, [e])]
  | (k, v) :: rest, p, e =>
      if k = p then (k, v ++ [e]) :: rest
      else (k, v) :: dictAppend rest p e

/-- Lookup of a group by its tag character (keys are unique by
construction of `collect_response`). -/
def lookupGroup (d : GroupedDict) (k : Char) : Option (List (List Char)) :=
  (d.find? (fun p => p.1 == k)).map (·.2)

/-- Loop of `collect_response` (`src/git.py:47-52`): iterate over
`filter(None, response_lines)` (empty lines dropped) and bucket each
line under its first character. -/
def collectGo (acc : GroupedDict) : List (List Char) → GroupedDict
  | [] => acc
  | entry :: rest =>
      match entry with
      | [] => collectGo acc rest
      | p :: _ => collectGo (dictAppend acc p entry) rest

/-- `collect_response` (`src/git.py:31-53`): collect a Git response into
a dictionary keyed by response type (first character of each line). -/
def collect_response (response_lines : List (List Char)) : GroupedDict :=
  collectGo [] response_lines

/-- Loop body of `parse_branches` (`src/git.py:70`): each branch line is
`lstrip`ped of `'# '` characters and split once on whitespace into a
key/value pair; a line that does not yield exactly two parts makes the
Python `dict()` constructor raise `ValueError`. -/
def branchPairs : List (List Char) → Except PyErr (List (List Char × List Char))
  | [] => .ok []
  | x :: xs =>
      match pySplitMax1 (pyLstripHashSpace x) with
      | [k, v] =>
          match branchPairs xs with
          | .ok ps => .ok ((k, v) :: ps)
          | .error e => .error e
      | _ => .error .valueError

/-- `parse_branches` (`src/git.py:56-70`): extract branch meta data from
the `'#'`-tagged lines as a key/value dict (kept as a pair list; lookups
use `pyDictGet`, under which a later duplicate key overwrites an earlier
one, matching Python's `dict()`). -/
def parse_branches (branch_list : List (List Char)) :
    Except PyErr (List (List Char × List Char)) :=
  branchPairs branch_list

/-- `get_branch` (`src/git.py:73-97`): return `branch.head`, or, when it
starts with `'('` (detached HEAD), the first `n_hash_chars` characters
of `branch.oid` behind `hash_pfx` (source parameter name
`hash_prefix`). A missing dict key raises `KeyError`. -/
def get_branch (branch_dict : List (List Char × List Char))
    (n_hash_chars : Nat := 7) (hash_pfx : List Char := [':']) :
    Except PyErr (List Char) :=
  match pyDictGet branch_dict (chars "branch.head") with
  | none => .error .keyError
  | some head =>
      if head.head? = some '(' then
        match pyDictGet branch_dict (chars "branch.oid") with
        | none => .error .keyError
        | some oid => .ok (hash_pfx ++ oid.take n_hash_chars)
      else .ok head

/-- One status line's contribution in `parse_modified`
(`src/git.py:120`): `x.split()[1].index('.')` — the index of the first
`'.'` character of the line's second whitespace token. Fewer than two
tokens raises `IndexError`; a token without `'.'` raises `ValueError`. -/
def lineDotIndex (l : List Char) : Except PyErr Nat :=
  match (pySplitWs l)[1]? with
  | none => .error .indexError
  | some tok =>
      match tok.findIdx? (fun c => c == '.') with
      | none => .error .valueError
      | some v => .ok v

/-- `counts[v] += 1` from `src/git.py:122`: `counts` has length two, so
any index other than `0` or `1` raises `IndexError`. -/
def dotBump (c : Nat × Nat) (v : Nat) : Except PyErr (Nat × Nat) :=
  if v = 0 then .ok (c.1 + 1, c.2)
  else if v = 1 then .ok (c.1, c.2 + 1)
  else .error .indexError

/-- The list comprehension `values` of `src/git.py:120`, evaluated for a
whole group before any count is bumped. -/
def linesDotIndices : List (List Char) → Except PyErr (List Nat)
  | [] => .ok []
  | l :: ls =>
      match lineDotIndex l with
      | .error e => .error e
      | .ok v =>
          match linesDotIndices ls with
          | .error e => .error e
          | .ok vs => .ok (v :: vs)

/-- The inner `for v in values: counts[v] += 1` loop of
`src/git.py:121-122`. -/
def bumpAll : Nat × Nat → List Nat → Except PyErr (Nat × Nat)
  | c, [] => .ok c
  | c, v :: vs =>
      match dotBump c v with
      | .error e => .error e
      | .ok c2 => bumpAll c2 vs

/-- Outer loop of `parse_modified` (`src/git.py:118-122`): iterate over
the grouped dict in insertion order, skipping ignored keys. -/
def parseModifiedGo (ignored : List Char) : GroupedDict → Nat × Nat → Except PyErr (Nat × Nat)
  | [], c => .ok c
  | (k, ls) :: rest, c =>
      if k ∈ ignored then parseModifiedGo ignored rest c
      else
        match linesDotIndices ls with
        | .error e => .error e
        | .ok vs =>
            match bumpAll c vs with
            | .error e => .error e
            | .ok c2 => parseModifiedGo ignored rest c2

/-- `parse_modified` (`src/git.py:100-123`): the two counters
`[counts[0], counts[1]]` accumulated from every non-ignored group.
Note: the caller (`src/git.py:170`) unpacks the result as
`n_modified, n_staged`, i.e. the first component is used as the
modified count and the second as the staged count. -/
def parse_modified (full_dict : GroupedDict)
    (ignored_keys : List Char := ['#', '?']) : Except PyErr (Nat × Nat) :=
  parseModifiedGo ignored_keys full_dict (0, 0)

/-- The list comprehension of `src/git.py:142`:
`[int(x[1:]) for x in ...]` — parse each token with its first character
dropped. -/
def mapIntDrop1 : List (List Char) → Except PyErr (List Int)
  | [] => .ok []
  | x :: xs =>
      match pyInt (x.drop 1) with
      | .error e => .error e
      | .ok n =>
          match mapIntDrop1 xs with
          | .error e => .error e
          | .ok ns => .ok (n :: ns)

/-- `parse_ab` (`src/git.py:126-142`): `[0, 0]` when `branch.ab` is
absent, otherwise one integer per whitespace token of its value, each
parsed with its first (sign) character dropped. -/
def parse_ab (branch_dict : List (List Char × List Char)) : Except PyErr (List Int) :=
  match pyDictGet branch_dict (chars "branch.ab") with
  | none => .ok [0, 0]
  | some v => mapIntDrop1 (pySplitWs v)

/-- Tuple unpacking `n_ahead, n_behind = ...` of `src/git.py:167`: a
list of length other than two raises `ValueError`. -/
def unpack2 : List Int → Except PyErr (Int × Int)
  | [a, b] => .ok (a, b)
  | _ => .error .valueError

/-- `parse_git_response` (`src/git.py:145-172`): strip and split the raw
response, group by line tag, require a `'#'` group (else `KeyError` from
the explicit `raise` at `src/git.py:164`), resolve the branch name,
ahead/behind counts, untracked count and the staged/modified counts.
Returns `(branch, n_untracked, n_staged, n_modified, n_ahead,
n_behind)`; note the swapped unpacking
`n_modified, n_staged = parse_modified(response_dict)` at
`src/git.py:170`. -/
def parse_git_response (utf8_response : List Char) :
    Except PyErr (List Char × Nat × Nat × Nat × Int × Int) :=
  let response_dict := collect_response (splitOn '\n' (pyStrip utf8_response))
  match lookupGroup response_dict '#' with
  | none => .error .keyError
  | some branch_lines =>
      match parse_branches branch_lines with
      | .error e => .error e
      | .ok branch_info =>
          match get_branch branch_info with
          | .error e => .error e
          | .ok branch =>
              match parse_ab branch_info with
              | .error e => .error e
              | .ok ab =>
                  match unpack2 ab with
                  | .error e => .error e
                  | .ok (n_ahead, n_behind) =>
                      let n_untracked :=
                        match lookupGroup response_dict '?' with
                        | some ls => ls.length
                        | none => 0
                      match parse_modified response_dict with
                      | .error e => .error e
                      | .ok (n_modified, n_staged) =>
                          .ok (branch, n_untracked, n_staged, n_modified, n_ahead, n_behind)

/-! ### Embedding of the rendering block of `src/git.py` (`__main__`, lines 184-197) -/

/-- Ahead marker (`src/git.py:184`): `('↑%d' % ahead) if ahead else ''`.
Python truthiness of an int is `≠ 0`. -/
def str_ahead (ahead : Int) : String :=
  if ahead ≠ 0 then "↑" ++ toString ahead else ""

/-- Behind marker (`src/git.py:185`): `('↓%d' % behind) if behind else ''`. -/
def str_behind (behind : Int) : String :=
  if behind ≠ 0 then "↓" ++ toString behind else ""

/-- Status marker (`src/git.py:187-193`): a single clean glyph when
`untracked + staged + modified == 0`, otherwise the concatenation of a
staged glyph+count when `staged` is non-zero, a modified glyph+count when
`modified` is non-zero, and a literal `'...'` when `untracked` is
non-zero. -/
def str_status (untracked staged modified : Nat) : String :=
  if untracked + staged + modified = 0 then "$fg_bold[green]✓$\x7breset_color\x7d"
  else
    (if staged ≠ 0 then "$\x7bfg_bold[magenta]\x7d•" ++ toString staged ++ "$\x7breset_color\x7d" else "")
    ++ (if modified ≠ 0 then "$\x7bfg_bold[blue]\x7d+" ++ toString modified ++ "$\x7breset_color\x7d" else "")
    ++ (if untracked ≠ 0 then "..." else "")

/-- Styled branch name (`src/git.py:196`):
`'${fg_bold[magenta]}%s${reset_color}' % branch_name`. -/
def styled_branch (branch_name : String) : String :=
  "$\x7bfg_bold[magenta]\x7d" ++ branch_name ++ "$\x7breset_color\x7d"

/-- The final output written by `src/git.py:195-197`:
`' ({}{}{}|{})'.format(styledBranch, str_ahead, str_behind, str_status)`. -/
def render (branch_name : String) (untracked staged modified : Nat)
    (ahead behind : Int) : String :=
  " (" ++ styled_branch branch_name ++ str_ahead ahead ++ str_behind behind
    ++ "|" ++ str_status untracked staged modified ++ ")"

/-! ### Embedding of `src/prompt.py` -/

/-- Fuel-indexed worker for `reSub`. Each step either copies one
character or, when the (non-empty) pattern is an initial segment of the
remaining text, emits the replacement and skips the pattern's length, so
fuel `s.length + 1` always suffices. -/
def reSubGo : Nat → List Char → List Char → List Char → List Char
  | 0, _, _, s => s
  | fuel + 1, pat, repl, s =>
      if !pat.isEmpty && isLeadOf pat s then
        repl ++ reSubGo fuel pat repl (s.drop pat.length)
      else
        match s with
        | [] => []
        | c :: rest => c :: reSubGo fuel pat repl rest

/-- Python `re.sub(pat, repl, s)` (`src/prompt.py:66`) modelled for
pattern strings free of regular-expression metacharacters, for which
`re.sub` is exactly literal replacement of every non-overlapping
occurrence, scanning left to right (`count=0`, i.e. global). -/
def reSub (pat repl s : List Char) : List Char :=
  reSubGo (s.length + 1) pat repl s

/-- The abbreviation loop of `src/prompt.py:69-72`: the piece at
distance `i` from the end of the list (for the head of `p :: rest` that
distance is `rest.length`) is replaced by its first character when
`i >= n_full` and the piece is non-empty (Python string truthiness). -/
def truncGo (n_full : Int) : List (List Char) → List (List Char)
  | [] => []
  | p :: rest =>
      (if n_full ≤ (rest.length : Int) ∧ p ≠ [] then p.take 1 else p) :: truncGo n_full rest

/-- `truncated_path` (`src/prompt.py:42-73`). `path` is the input path
(the `path is None` / `os.getcwd()` default and the `--debug` write to
stderr are outside the embedded pure logic); `home` is `os.environ`'s
`HOME` binding (`none` when unset, in which case `os.environ["HOME"]`
raises `KeyError`). When `n_full <= 0` the local `pieces` is never
assigned and the final `"/".join(pieces)` raises `UnboundLocalError`. -/
def truncated_path (path : List Char) (home : Option (List Char))
    (home_tilde : Bool) (n_full : Int) : Except PyErr (List Char) :=
  match (if home_tilde then
          match home with
          | none => Except.error PyErr.keyError
          | some h => Except.ok (reSub h ['~'] path)
        else Except.ok path) with
  | .error e => .error e
  | .ok path2 =>
      if 0 < n_full then .ok (joinOn '/' (truncGo n_full (splitOn '/' path2)))
      else .error .unboundLocalError

/-! ### Specification-side definitions

These follow the wording of `spec.md` (not the source) and are compared
against the source-derived definitions above. -/

/-- Spec §4.4 step 3, stated in the spec's own words: walking from the
last piece backward, the first `nFull` pieces are kept verbatim; every
piece at distance `nFull` or more from the end, if non-empty, is
replaced by its first character (empty pieces are left untouched).
Equivalently: all but the last `n` pieces are abbreviated. -/
def truncSpecPieces (ps : List (List Char)) (n : Nat) : List (List Char) :=
  (ps.take (ps.length - n)).map (fun p => if p = [] then p else p.take 1)
    ++ ps.drop (ps.length - n)

/-- The clean glyph token of `src/git.py:188` (note the source styles
`fg_bold[green]` without braces there). -/
def cleanGlyph : String := "$fg_bold[green]✓$\x7breset_color\x7d"

/-- The staged glyph+count token of `src/git.py:191`. -/
def stagedMarker (n : Nat) : String :=
  "$\x7bfg_bold[magenta]\x7d•" ++ toString n ++ "$\x7breset_color\x7d"

/-- The modified glyph+count token of `src/git.py:192`. -/
def modifiedMarker (n : Nat) : String :=
  "$\x7bfg_bold[blue]\x7d+" ++ toString n ++ "$\x7breset_color\x7d"

/-- The fixed untracked-indicator token of `src/git.py:193`. -/
def untrackedToken : String := "..."

/-- Spec §4.3 status marker, stated in the spec's own words: a single
clean glyph when `untracked + staged + modified == 0`; otherwise the
concatenation, in order and with no separators, of the staged marker iff
`staged > 0`, the modified marker iff `modified > 0`, and the untracked
token iff `untracked > 0`. -/
def statusMarkerSpec (untracked staged modified : Nat) : String :=
  if untracked + staged + modified = 0 then cleanGlyph
  else
    (if 0 < staged then stagedMarker staged else "")
    ++ (if 0 < modified then modifiedMarker modified else "")
    ++ (if 0 < untracked then untrackedToken else "")

/-- Number of lines, over all non-ignored groups of `d`, whose second
whitespace token has its first `'.'` at index `i`. -/
def cntDot (ignored : List Char) (i : Nat) : GroupedDict → Nat
  | [] => 0
  | (k, ls) :: rest =>
      (if k ∈ ignored then 0
       else ls.countP (fun l => decide (lineDotIndex l = Except.ok i)))
      + cntDot ignored i rest

/-- Total number of lines in the non-ignored groups of `d`. -/
def totalTrackedLines (ignored : List Char) : GroupedDict → Nat
  | [] => 0
  | (k, ls) :: rest =>
      (if k ∈ ignored then 0 else ls.length) + totalTrackedLines ignored rest

/-- The single-character status codes git's porcelain-v2 format can emit
in either position of the XY field (besides `'.'`): modified, type
changed, added, deleted, renamed, copied, unmerged, and submodule
changes. -/
def validStatusCodes : List Char := ['M', 'T', 'A', 'D', 'R', 'C', 'U', 'm']

/-! ### Helper lemmas -/

theorem isDigitCh_facts (c : Char) (h : isDigitCh c = true) :
    pyIsSpace c = false ∧ c ≠ '+' ∧ c ≠ '-' := by
  have hm : c ∈ ['0', '1', '2', '3', '4', '5', '6', '7', '8', '9'] := by
    simpa [isDigitCh] using h
  fin_cases hm <;> exact ⟨rfl, by decide, by decide⟩

theorem dropWhile_eq_self_of_all {p : Char → Bool} (l : List Char)
    (h : ∀ c ∈ l, p c = false) : l.dropWhile p = l := by
  cases l with
  | nil => rfl
  | cons c cs => simp [List.dropWhile, h c (by simp)]

theorem pyStrip_of_allDigits (l : List Char) (h : allDigits l = true) :
    pyStrip l = l := by
  have hd : ∀ c ∈ l, isDigitCh c = true := by
    simpa [allDigits, List.all_eq_true] using h
  have hall : ∀ c ∈ l, pyIsSpace c = false := fun c hc => (isDigitCh_facts c (hd c hc)).1
  unfold pyStrip
  rw [dropWhile_eq_self_of_all l hall,
    dropWhile_eq_self_of_all l.reverse (fun c hc => hall c (List.mem_reverse.mp hc)),
    List.reverse_reverse]

theorem pyInt_of_digits (l : List Char) (h : allDigits l = true) (hne : l ≠ []) :
    pyInt l = .ok (digitsVal l) := by
  obtain ⟨c, cs, rfl⟩ : ∃ c cs, l = c :: cs := by
    cases l with
    | nil => exact absurd rfl hne
    | cons c cs => exact ⟨c, cs, rfl⟩
  have hd : ∀ x ∈ c :: cs, isDigitCh x = true := by
    simpa [allDigits, List.all_eq_true] using h
  obtain ⟨-, hplus, hminus⟩ := isDigitCh_facts c (hd c (by simp))
  simp [pyInt, pyStrip_of_allDigits _ h, hplus, hminus, h]

theorem truncGo_eq_spec (n : Int) (hn : 0 < n) :
    ∀ ps : List (List Char), truncGo n ps = truncSpecPieces ps n.toNat := by
  intro ps
  induction ps with
  | nil => simp [truncGo, truncSpecPieces]
  | cons p rest ih =>
      by_cases hc : n ≤ (rest.length : Int)
      · have hk : (p :: rest).length - n.toNat = (rest.length - n.toNat) + 1 := by
          simp only [List.length_cons]
          omega
        have hhead : (if n ≤ (rest.length : Int) ∧ p ≠ [] then p.take 1 else p)
            = (if p = [] then p else p.take 1) := by
          by_cases hp : p = [] <;> simp [hp, hc]
        simp only [truncGo, truncSpecPieces, hk, List.take_succ_cons, List.drop_succ_cons,
          List.map_cons, List.cons_append, hhead, ih]
      · have hcond : ¬(n ≤ (rest.length : Int) ∧ p ≠ []) := fun hand => hc hand.1
        have hk : (p :: rest).length - n.toNat = 0 := by
          simp only [List.length_cons]
          omega
        have hrest : rest.length - n.toNat = 0 := by omega
        simp only [truncGo, truncSpecPieces, hk, hrest, List.take_zero, List.drop_zero,
          List.map_nil, List.nil_append, if_neg hcond, ih]

theorem lookupGroup_dictAppend_ne (p : Char) (e : List Char) (k : Char) (hk : k ≠ p) :
    ∀ acc : GroupedDict, lookupGroup (dictAppend acc p e) k = lookupGroup acc k := by
  intro acc
  induction acc with
  | nil =>
      have hpk : (p == k) = false := by
        rw [beq_eq_false_iff_ne]
        exact Ne.symm hk
      simp [dictAppend, lookupGroup, List.find?, hpk]
  | cons kv rest ih =>
      obtain ⟨k', v⟩ := kv
      by_cases h : k' = p
      · subst h
        have : (k' == k) = false := by simp [beq_eq_false_iff_ne, Ne.symm hk]
        simp [dictAppend, lookupGroup, List.find?, this]
      · by_cases hk' : k' = k
        · subst hk'
          simp [dictAppend, h, lookupGroup, List.find?]
        · have : (k' == k) = false := by simp [beq_eq_false_iff_ne, hk']
          simpa [dictAppend, h, lookupGroup, List.find?, this] using ih

theorem collectGo_no_hash :
    ∀ (lines : List (List Char)) (acc : GroupedDict),
      (∀ l ∈ lines, l.head? ≠ some '#') → lookupGroup acc '#' = none →
      lookupGroup (collectGo acc lines) '#' = none := by
  intro lines
  induction lines with
  | nil => intro acc _ hacc; exact hacc
  | cons entry rest ih =>
      intro acc hl hacc
      cases entry with
      | nil => exact ih acc (fun l hm => hl l (List.mem_cons_of_mem _ hm)) hacc
      | cons p tail =>
          have hp : p ≠ '#' := by simpa using hl (p :: tail) (by simp)
          show lookupGroup (collectGo (dictAppend acc p (p :: tail)) rest) '#' = none
          exact ih (dictAppend acc p (p :: tail))
            (fun l hm => hl l (List.mem_cons_of_mem _ hm))
            (by rw [lookupGroup_dictAppend_ne p (p :: tail) '#' (Ne.symm hp) acc]; exact hacc)

theorem ok_pair_eq {a b c d : Nat} (h1 : a = c) (h2 : b = d) :
    (Except.ok (a, b) : Except PyErr (Nat × Nat)) = .ok (c, d) := by
  rw [h1, h2]

theorem group_counts (ls : List (List Char)) :
    ∀ c : Nat × Nat, (∀ l ∈ ls, lineDotIndex l = .ok 0 ∨ lineDotIndex l = .ok 1) →
    ∃ vs, linesDotIndices ls = .ok vs ∧
      bumpAll c vs = .ok
        (c.1 + ls.countP (fun l => decide (lineDotIndex l = Except.ok 0)),
         c.2 + ls.countP (fun l => decide (lineDotIndex l = Except.ok 1))) := by
  induction ls with
  | nil => intro c _; exact ⟨[], rfl, by simp [bumpAll]⟩
  | cons l ls ih =>
      intro c hl
      rcases hl l (by simp) with h0 | h1
      · obtain ⟨vs, hvs, hbump⟩ := ih (c.1 + 1, c.2) (fun x hx => hl x (List.mem_cons_of_mem _ hx))
        refine ⟨0 :: vs, by simp [linesDotIndices, h0, hvs], ?_⟩
        have hstep : bumpAll c (0 :: vs) = bumpAll (c.1 + 1, c.2) vs := by
          simp [bumpAll, dotBump]
        rw [hstep, hbump]
        refine ok_pair_eq ?_ ?_
        · simp [List.countP_cons, h0]
          omega
        · simp [List.countP_cons, h0]
      · obtain ⟨vs, hvs, hbump⟩ := ih (c.1, c.2 + 1) (fun x hx => hl x (List.mem_cons_of_mem _ hx))
        refine ⟨1 :: vs, by simp [linesDotIndices, h1, hvs], ?_⟩
        have hstep : bumpAll c (1 :: vs) = bumpAll (c.1, c.2 + 1) vs := by
          simp [bumpAll, dotBump]
        rw [hstep, hbump]
        refine ok_pair_eq ?_ ?_
        · simp [List.countP_cons, h1]
        · simp [List.countP_cons, h1]
          omega

theorem parseModifiedGo_counts :
    ∀ (d : GroupedDict) (ign : List Char) (c : Nat × Nat),
    (∀ p ∈ d, p.1 ∉ ign → ∀ l ∈ p.2, lineDotIndex l = .ok 0 ∨ lineDotIndex l = .ok 1) →
    parseModifiedGo ign d c = .ok (c.1 + cntDot ign 0 d, c.2 + cntDot ign 1 d) := by
  intro d
  induction d with
  | nil => intro ign c _; simp [parseModifiedGo, cntDot]
  | cons kv rest ih =>
      intro ign c hall
      obtain ⟨k, ls⟩ := kv
      have hrest : ∀ p ∈ rest, p.1 ∉ ign → ∀ l ∈ p.2,
          lineDotIndex l = .ok 0 ∨ lineDotIndex l = .ok 1 :=
        fun p hp => hall p (List.mem_cons_of_mem _ hp)
      by_cases hk : k ∈ ign
      · simp [parseModifiedGo, hk, cntDot, ih ign c hrest]
      · obtain ⟨vs, hvs, hbump⟩ := group_counts ls c (hall (k, ls) (by simp) hk)
        simp only [parseModifiedGo, if_neg hk, hvs, hbump,
          ih ign _ hrest, cntDot, if_neg hk]
        simp [Nat.add_assoc]

theorem countP_dot_split (ls : List (List Char))
    (h : ∀ l ∈ ls, lineDotIndex l = .ok 0 ∨ lineDotIndex l = .ok 1) :
    ls.countP (fun l => decide (lineDotIndex l = Except.ok 0))
      + ls.countP (fun l => decide (lineDotIndex l = Except.ok 1)) = ls.length := by
  induction ls with
  | nil => rfl
  | cons l ls ih =>
      have ih' := ih (fun x hx => h x (List.mem_cons_of_mem _ hx))
      rcases h l (by simp) with h0 | h1
      · simp [List.countP_cons, h0]
        omega
      · simp [List.countP_cons, h1]
        omega

theorem cntDot_total :
    ∀ (d : GroupedDict) (ign : List Char),
    (∀ p ∈ d, p.1 ∉ ign → ∀ l ∈ p.2, lineDotIndex l = .ok 0 ∨ lineDotIndex l = .ok 1) →
    cntDot ign 0 d + cntDot ign 1 d = totalTrackedLines ign d := by
  intro d
  induction d with
  | nil => intro ign _; rfl
  | cons kv rest ih =>
      intro ign hall
      obtain ⟨k, ls⟩ := kv
      have hrest := fun p hp => hall p (List.mem_cons_of_mem _ hp)
      by_cases hk : k ∈ ign
      · simp [cntDot, totalTrackedLines, hk, ih ign hrest]
      · have hsplit := countP_dot_split ls (hall (k, ls) (by simp) hk)
        simp only [cntDot, totalTrackedLines, if_neg hk]
        have := ih ign hrest
        omega

theorem linesDotIndices_append_error (l : List Char) (e : PyErr)
    (hl : lineDotIndex l = .error e) :
    ∀ pre : List (List Char), (∀ p ∈ pre, ∃ v, lineDotIndex p = .ok v) →
    linesDotIndices (pre ++ [l]) = .error e := by
  intro pre
  induction pre with
  | nil => intro _; simp [linesDotIndices, hl]
  | cons p ps ih =>
      intro h
      obtain ⟨v, hv⟩ := h p (by simp)
      simp [linesDotIndices, hv, ih (fun q hq => h q (List.mem_cons_of_mem _ hq))]

theorem leadOf_reSubGo :
    ∀ (fuel : Nat) (s t pat : List Char),
      s.length < fuel → pat ≠ [] → '~' ∉ t →
      isLeadOf t (reSubGo fuel pat ['~'] s) = true →
      t = [] ∨ (isLeadOf t s = true ∧ isLeadOf pat s = false) := by
  intro fuel
  induction fuel with
  | zero => intro s t pat h _ _ _; exact absurd h (Nat.not_lt_zero _)
  | succ fuel ih =>
      intro s t pat hlen hpat htld hlead
      by_cases hc : (!pat.isEmpty && isLeadOf pat s) = true
      · have hred : reSubGo (fuel + 1) pat ['~'] s
            = '~' :: reSubGo fuel pat ['~'] (s.drop pat.length) := by
          simp [reSubGo, hc]
        rw [hred] at hlead
        cases t with
        | nil => exact Or.inl rfl
        | cons a t' =>
            have ha : a ≠ '~' := fun h => htld (by simp [h])
            have ha' : (a == '~') = false := by simp [ha]
            simp [isLeadOf, ha'] at hlead
      · have hc' : (!pat.isEmpty && isLeadOf pat s) = false := by simpa using hc
        cases s with
        | nil =>
            have hred : reSubGo (fuel + 1) pat ['~'] [] = [] := by
              simp [reSubGo, hc']
            rw [hred] at hlead
            cases t with
            | nil => exact Or.inl rfl
            | cons a t' => simp [isLeadOf] at hlead
        | cons c rest =>
            have hred : reSubGo (fuel + 1) pat ['~'] (c :: rest)
                = c :: reSubGo fuel pat ['~'] rest := by
              simp [reSubGo, hc']
            rw [hred] at hlead
            have hns : isLeadOf pat (c :: rest) = false := by
              have hpe : pat.isEmpty = false := by
                cases pat with
                | nil => exact absurd rfl hpat
                | cons _ _ => rfl
              simpa [hpe] using hc'
            cases t with
            | nil => exact Or.inl rfl
            | cons a t' =>
                have hsplit : a = c ∧ isLeadOf t' (reSubGo fuel pat ['~'] rest) = true := by
                  simpa [isLeadOf, Bool.and_eq_true, beq_iff_eq] using hlead
                obtain ⟨rfl, hlead'⟩ := hsplit
                have htld' : '~' ∉ t' := fun h => htld (List.mem_cons_of_mem _ h)
                have hlen' : rest.length < fuel := by
                  simp only [List.length_cons] at hlen
                  omega
                rcases ih rest t' pat hlen' hpat htld' hlead' with h0 | ⟨h1, _⟩
                · subst h0
                  exact Or.inr ⟨by simp [isLeadOf], hns⟩
                · exact Or.inr ⟨by simp [isLeadOf, h1], hns⟩

theorem occursIn_reSubGo :
    ∀ (fuel : Nat) (s pat : List Char),
      s.length < fuel → pat ≠ [] → '~' ∉ pat →
      occursIn pat (reSubGo fuel pat ['~'] s) = false := by
  intro fuel
  induction fuel with
  | zero => intro s pat h _ _; exact absurd h (Nat.not_lt_zero _)
  | succ fuel ih =>
      intro s pat hlen hpat htld
      by_cases hc : (!pat.isEmpty && isLeadOf pat s) = true
      · have hlead : isLeadOf pat s = true := by
          rw [Bool.and_eq_true] at hc
          exact hc.2
        have hred : reSubGo (fuel + 1) pat ['~'] s
            = '~' :: reSubGo fuel pat ['~'] (s.drop pat.length) := by
          simp [reSubGo, hc]
        rw [hred]
        obtain ⟨a, as, rfl⟩ : ∃ a as, pat = a :: as := by
          cases pat with
          | nil => exact absurd rfl hpat
          | cons a as => exact ⟨a, as, rfl⟩
        have ha : a ≠ '~' := fun h => htld (by simp [h])
        have ha' : (a == '~') = false := by simp [ha]
        have hs : s ≠ [] := by
          intro h
          subst h
          simp [isLeadOf] at hlead
        have hlen' : (s.drop (a :: as).length).length < fuel := by
          rw [List.length_drop]
          have hsl : 1 ≤ s.length := by
            cases s with
            | nil => exact absurd rfl hs
            | cons _ _ => simp
          simp only [List.length_cons] at *
          omega
        have hrec := ih (s.drop (a :: as).length) (a :: as) hlen' hpat htld
        simp only [occursIn, isLeadOf, ha', Bool.false_and, Bool.false_or]
        simpa using hrec
      · have hc' : (!pat.isEmpty && isLeadOf pat s) = false := by simpa using hc
        cases s with
        | nil =>
            have hred : reSubGo (fuel + 1) pat ['~'] [] = [] := by
              simp [reSubGo, hc']
            rw [hred]
            cases pat with
            | nil => exact absurd rfl hpat
            | cons a as => simp [occursIn]
        | cons c rest =>
            have hred : reSubGo (fuel + 1) pat ['~'] (c :: rest)
                = c :: reSubGo fuel pat ['~'] rest := by
              simp [reSubGo, hc']
            have hlen' : rest.length < fuel := by
              simp only [List.length_cons] at hlen
              omega
            have hrec := ih rest pat hlen' hpat htld
            rw [hred]
            have hfirst : isLeadOf pat (c :: reSubGo fuel pat ['~'] rest) = false := by
              cases hb : isLeadOf pat (c :: reSubGo fuel pat ['~'] rest) with
              | false => rfl
              | true =>
                  have htrue : isLeadOf pat (reSubGo (fuel + 1) pat ['~'] (c :: rest)) = true := by
                    rw [hred]
                    exact hb
                  rcases leadOf_reSubGo (fuel + 1) (c :: rest) pat pat hlen hpat htld htrue
                    with h0 | ⟨h1, h2⟩
                  · exact absurd h0 hpat
                  · exact absurd (h1.symm.trans h2) (by decide)
            simp [occursIn, hfirst, hrec]

theorem str_status_eq_spec (u s m : Nat) :
    str_status u s m = statusMarkerSpec u s m := by
  simp [str_status, statusMarkerSpec, cleanGlyph, stagedMarker, modifiedMarker,
    untrackedToken, Nat.pos_iff_ne_zero]

/-! ### Claim theorems -/

/-- C4: for every '1' or '2' tracked-change line whose XY field has its
single non-'.' status code in position 0 (e.g. `M.`), the end-to-end
parse `parse_git_response` reports one staged and zero modified entries,
and with the code in position 1 (e.g. `.M`) zero staged and one
modified; this holds for every valid single-character status code in
either position (the returned tuple is
`(branch, untracked, staged, modified, ahead, behind)`). -/
theorem C4_xy_position_staged_modified :
    (∀ t ∈ ['1', '2'], ∀ c ∈ validStatusCodes,
      parse_git_response (chars "# branch.head main" ++ ['\n', t, ' ', c, '.', ' ', 'f'])
        = .ok (chars "main", 0, 1, 0, 0, 0))
    ∧ (∀ t ∈ ['1', '2'], ∀ c ∈ validStatusCodes,
      parse_git_response (chars "# branch.head main" ++ ['\n', t, ' ', '.', c, ' ', 'f'])
        = .ok (chars "main", 0, 0, 1, 0, 0)) := by
  constructor <;> decide

/-- Witness for C4 at the concrete status code `M` on a `1` line. -/
theorem C4_xy_position_staged_modified_witness :
    parse_git_response (chars "# branch.head main" ++ ['\n', '1', ' ', 'M', '.', ' ', 'f'])
      = .ok (chars "main", 0, 1, 0, 0, 0)
    ∧ parse_git_response (chars "# branch.head main" ++ ['\n', '1', ' ', '.', 'M', ' ', 'f'])
      = .ok (chars "main", 0, 0, 1, 0, 0) :=
  ⟨C4_xy_position_staged_modified.1 '1' (by decide) 'M' (by decide),
   C4_xy_position_staged_modified.2 '1' (by decide) 'M' (by decide)⟩

/-- C5: whenever `n_full ≤ 0`, `truncated_path` does not return a path:
it raises an error, and specifically `UnboundLocalError` whenever it
gets past the home-directory step (tilde collapsing disabled, or `HOME`
set), because `pieces` is only assigned inside the `n_full > 0` branch;
it returns normally only when `n_full > 0`. -/
theorem C5_nonpositive_nfull_unbound (path : List Char)
    (home : Option (List Char)) (home_tilde : Bool) (n_full : Int) :
    (n_full ≤ 0 → ∃ e, truncated_path path home home_tilde n_full = .error e)
    ∧ (n_full ≤ 0 → home_tilde = false →
        truncated_path path home home_tilde n_full = .error .unboundLocalError)
    ∧ (n_full ≤ 0 → ∀ h, home = some h →
        truncated_path path home home_tilde n_full = .error .unboundLocalError)
    ∧ (∀ out, truncated_path path home home_tilde n_full = .ok out → 0 < n_full) := by
  refine ⟨?_, ?_, ?_, ?_⟩
  · intro hle
    cases home_tilde
    · exact ⟨.unboundLocalError, by simp [truncated_path, if_neg (show ¬0 < n_full by omega)]⟩
    · cases home
      · exact ⟨.keyError, by simp [truncated_path]⟩
      · exact ⟨.unboundLocalError, by simp [truncated_path, if_neg (show ¬0 < n_full by omega)]⟩
  · intro hle hf
    subst hf
    simp [truncated_path, if_neg (show ¬0 < n_full by omega)]
  · intro hle h hh
    subst hh
    cases home_tilde <;> simp [truncated_path, if_neg (show ¬0 < n_full by omega)]
  · intro out hout
    by_contra hn
    cases home_tilde
    · simp [truncated_path, if_neg (show ¬0 < n_full by omega)] at hout
    · cases home
      · simp [truncated_path] at hout
      · simp [truncated_path, if_neg (show ¬0 < n_full by omega)] at hout

/-- Witness for C5 at `n_full = 0` with tilde collapsing enabled and
`HOME` set. -/
theorem C5_nonpositive_nfull_unbound_witness :
    truncated_path (chars "/a/b") (some (chars "/h")) true 0 = .error .unboundLocalError :=
  (C5_nonpositive_nfull_unbound (chars "/a/b") (some (chars "/h")) true 0).2.2.1
    (by decide) (chars "/h") rfl

/-- C7: the rendered decoration is exactly
`" (" ++ styledBranch ++ aheadMarker ++ behindMarker ++ "|" ++ statusMarker ++ ")"`,
where the status marker is the single clean glyph exactly when
`untracked + staged + modified = 0` and otherwise the separator-free
concatenation of the staged glyph+count iff `staged > 0`, the modified
glyph+count iff `modified > 0`, and the fixed untracked token iff
`untracked > 0`. -/
theorem C7_render_shape (branch : String) (u s m : Nat) (a b : Int) :
    render branch u s m a b
      = " (" ++ styled_branch branch ++ str_ahead a ++ str_behind b ++ "|"
        ++ statusMarkerSpec u s m ++ ")"
    ∧ (u + s + m = 0 → statusMarkerSpec u s m = cleanGlyph)
    ∧ (u + s + m ≠ 0 → statusMarkerSpec u s m =
        (if 0 < s then stagedMarker s else "")
        ++ (if 0 < m then modifiedMarker m else "")
        ++ (if 0 < u then untrackedToken else "")) := by
  refine ⟨?_, fun h0 => ?_, fun hne => ?_⟩
  · rw [render, str_status_eq_spec]
  · simp [statusMarkerSpec, h0]
  · simp [statusMarkerSpec, hne]

/-- Witness for C7 at `untracked = 3`, `staged = 2`, `modified = 1`. -/
theorem C7_render_shape_witness :
    render "main" 3 2 1 0 0
      = " (" ++ styled_branch "main" ++ str_ahead 0 ++ str_behind 0 ++ "|"
        ++ statusMarkerSpec 3 2 1 ++ ")"
    ∧ statusMarkerSpec 3 2 1 = stagedMarker 2 ++ modifiedMarker 1 ++ untrackedToken :=
  ⟨(C7_render_shape "main" 3 2 1 0 0).1,
   ((C7_render_shape "main" 3 2 1 0 0).2.2 (by decide)).trans (by decide)⟩

/-- C8: given a branch-info mapping binding `branch.head`, `get_branch`
returns `':'` followed by the first 7 characters of `branch.oid` when
the `branch.head` value starts with `'('`, and the `branch.head` value
verbatim otherwise. -/
theorem C8_get_branch_resolution (d : List (List Char × List Char)) (head : List Char)
    (hhead : pyDictGet d (chars "branch.head") = some head) :
    (∀ oid, head.head? = some '(' → pyDictGet d (chars "branch.oid") = some oid →
      get_branch d = .ok ([':'] ++ oid.take 7))
    ∧ (head.head? ≠ some '(' → get_branch d = .ok head) := by
  constructor
  · intro oid hpar hoid
    simp [get_branch, hhead, hpar, hoid]
  · intro hne
    simp [get_branch, hhead, hne]

/-- Witness for C8: `branch.head` of `(detached)` with `branch.oid` of
`abcdef1234567` resolves to `:abcdef1`; a plain `main` head resolves to
itself. -/
theorem C8_get_branch_resolution_witness :
    get_branch [(chars "branch.head", chars "(detached)"), (chars "branch.oid", chars "abcdef1234567")]
      = .ok (chars ":abcdef1")
    ∧ get_branch [(chars "branch.head", chars "main")] = .ok (chars "main") :=
  ⟨((C8_get_branch_resolution _ (chars "(detached)") (by decide)).1
      (chars "abcdef1234567") (by decide) (by decide)).trans (by decide),
   (C8_get_branch_resolution _ (chars "main") (by decide)).2 (by decide)⟩

/-- C9: `parse_ab` yields `[0, 0]` when `branch.ab` is absent; when the
`branch.ab` value splits into exactly two whitespace tokens, each a sign
character (`+`/`-`) followed by a non-empty run of digits, it yields the
two digit magnitudes in token order, signs discarded. -/
theorem C9_parse_ab (d : List (List Char × List Char)) :
    (pyDictGet d (chars "branch.ab") = none → parse_ab d = .ok [0, 0])
    ∧ (∀ v t1 t2 s1 s2 d1 d2,
        pyDictGet d (chars "branch.ab") = some v →
        pySplitWs v = [t1, t2] →
        t1 = s1 :: d1 → t2 = s2 :: d2 →
        (s1 = '+' ∨ s1 = '-') → (s2 = '+' ∨ s2 = '-') →
        allDigits d1 = true → d1 ≠ [] → allDigits d2 = true → d2 ≠ [] →
        parse_ab d = .ok [(digitsVal d1 : Int), (digitsVal d2 : Int)]) := by
  constructor
  · intro hnone
    simp [parse_ab, hnone]
  · intro v t1 t2 s1 s2 d1 d2 hv hsplit ht1 ht2 _ _ hd1 hd1ne hd2 hd2ne
    subst ht1 ht2
    simp [parse_ab, hv, hsplit, mapIntDrop1,
      pyInt_of_digits d1 hd1 hd1ne, pyInt_of_digits d2 hd2 hd2ne]

/-- Witness for C9: a `branch.ab` value of `+2 -3` yields ahead 2 and
behind 3; an absent `branch.ab` yields `[0, 0]`. -/
theorem C9_parse_ab_witness :
    parse_ab [(chars "branch.ab", chars "+2 -3")] = .ok [2, 3]
    ∧ parse_ab [(chars "branch.head", chars "main")] = .ok [0, 0] :=
  ⟨((C9_parse_ab [(chars "branch.ab", chars "+2 -3")]).2 (chars "+2 -3")
      (chars "+2") (chars "-3") '+' '-' ['2'] ['3'] (by decide) (by decide)
      (by decide) (by decide) (by decide) (by decide) (by decide) (by decide)
      (by decide) (by decide)).trans (by decide),
   (C9_parse_ab [(chars "branch.head", chars "main")]).1 (by decide)⟩

/-- C6: with tilde-collapsing disabled and `n_full > 0`, `truncated_path`
splits the path on `'/'`, keeps the last `n_full` pieces verbatim,
replaces every non-empty earlier piece by its first character (empty
pieces, such as the leading piece of an absolute path, stay untouched —
see `truncSpecPieces`, which is the spec's own description), and rejoins
with `'/'`. -/
theorem C6_truncation_spec (path : List Char) (home : Option (List Char))
    (n_full : Int) (hn : 0 < n_full) :
    truncated_path path home false n_full
      = .ok (joinOn '/' (truncSpecPieces (splitOn '/' path) n_full.toNat)) := by
  simp [truncated_path, if_pos hn, truncGo_eq_spec n_full hn]

/-- Witness for C6: `n_full = 1` on `/alpha/beta/gamma/delta` yields
`/a/b/g/delta`. -/
theorem C6_truncation_spec_witness :
    truncated_path (chars "/alpha/beta/gamma/delta") none false 1
      = .ok (chars "/a/b/g/delta") :=
  (C6_truncation_spec (chars "/alpha/beta/gamma/delta") none 1 (by decide)).trans (by decide)

/-- C10 (amended): for every raw status text in which no line of the
whitespace-stripped text starts with `'#'` (so no branch-header group is
formed), the top-level parse fails with a `KeyError` rather than
returning a status summary. (The original claim, stated over the lines
of the raw text, fails when the raw text begins with whitespace directly
followed by `'#'`: `str.strip()` then creates a `'#'` line — see the
counterexample.) -/
theorem C10_no_branch_header_fails (text : List Char)
    (h : ∀ l ∈ splitOn '\n' (pyStrip text), l.head? ≠ some '#') :
    parse_git_response text = .error .keyError := by
  have hnone : lookupGroup (collect_response (splitOn '\n' (pyStrip text))) '#' = none :=
    collectGo_no_hash (splitOn '\n' (pyStrip text)) [] h rfl
  simp [parse_git_response, collect_response] at hnone ⊢
  simp [hnone]

/-- Witness for C10's amended theorem at a text with a single tracked
change line and no branch header. -/
theorem C10_no_branch_header_fails_witness :
    parse_git_response (chars "1 M. f") = .error .keyError :=
  C10_no_branch_header_fails (chars "1 M. f") (by decide)

/-- Counterexample to C10 as stated: in the raw text
`" #branch.head main"` no line starts with `'#'` (its only line starts
with a space), yet the parse succeeds and returns a status summary,
because `parse_git_response` strips the text before splitting, turning
the line into a `'#'` line. -/
theorem C10_no_branch_header_cex :
    (∀ l ∈ splitOn '\n' (chars " #branch.head main"), l.head? ≠ some '#')
    ∧ parse_git_response (chars " #branch.head main")
        = .ok (chars "main", 0, 0, 0, 0, 0) := by
  constructor <;> decide

/-- C1 (amended): for every grouped status input in which every line of
every non-ignored group has at least two whitespace tokens and a `'.'`
at position 0 or 1 of its XY field, `parse_modified` returns exactly
(count of lines whose first `'.'` is at index 0, count of lines whose
first `'.'` is at index 1), and these two counts sum to the total number
of lines in the non-ignored groups — so every such line contributes to
exactly one count. Since the caller unpacks the pair as
`(modified, staged)`, a field whose single non-'.' code sits at
position 0 (first `'.'` at index 1, e.g. `M.`) increments staged, and at
position 1 (e.g. `.M`) increments modified. A line whose XY field has
no `'.'` at all (e.g. unmerged `UU`) instead aborts the whole
computation with a `ValueError` — see the counterexample. -/
theorem C1_change_counts (d : GroupedDict)
    (hall : ∀ p ∈ d, p.1 ∉ ['#', '?'] → ∀ l ∈ p.2,
      lineDotIndex l = .ok 0 ∨ lineDotIndex l = .ok 1) :
    parse_modified d = .ok (cntDot ['#', '?'] 0 d, cntDot ['#', '?'] 1 d)
    ∧ cntDot ['#', '?'] 0 d + cntDot ['#', '?'] 1 d = totalTrackedLines ['#', '?'] d := by
  constructor
  · simpa [parse_modified] using parseModifiedGo_counts d ['#', '?'] (0, 0) hall
  · exact cntDot_total d ['#', '?'] hall

/-- Witness for C1's amended theorem on a grouped input with one `M.`
line and one `.M` line. -/
theorem C1_change_counts_witness :
    parse_modified [('#', [chars "# branch.head main"]),
        ('1', [chars "1 M. f", chars "1 .M g"])] = .ok (1, 1)
    ∧ cntDot ['#', '?'] 0 [('#', [chars "# branch.head main"]),
        ('1', [chars "1 M. f", chars "1 .M g"])]
      + cntDot ['#', '?'] 1 [('#', [chars "# branch.head main"]),
        ('1', [chars "1 M. f", chars "1 .M g"])] = 2 :=
  ⟨(C1_change_counts _ (by decide)).1.trans (by decide),
   (C1_change_counts _ (by decide)).2.trans (by decide)⟩

/-- Counterexample to C1 as stated: a group input with a single unmerged
line whose XY field `UU` contains no `'.'` does not contribute to either
count — `str.index` raises `ValueError` and the whole computation
aborts, contradicting the claim that such lines "contribute to exactly
one count and do not abort". -/
theorem C1_change_counts_cex :
    parse_modified [('u', [chars "u UU f"])] = .error .valueError := by
  decide

/-- C3 (amended): a line whose XY field is exactly `..` is not skipped:
its first `'.'` is at index 0, so it is counted in the first component
of `parse_modified` (which the caller unpacks as the modified count);
and a line that does not split into at least two whitespace tokens makes
the whole parse fail with an `IndexError` instead of being skipped. -/
theorem C3_malformed_lines :
    (∀ ls : List (List Char), (∀ l ∈ ls, lineDotIndex l = .ok 0) →
      parse_modified [('1', ls)] = .ok (ls.length, 0))
    ∧ (∀ (pre : List (List Char)) (l : List Char),
        (∀ p ∈ pre, lineDotIndex p = .ok 0 ∨ lineDotIndex p = .ok 1) →
        lineDotIndex l = .error .indexError →
        parse_modified [('1', pre ++ [l])] = .error .indexError) := by
  constructor
  · intro ls h
    have hall : ∀ p ∈ [('1', ls)], p.1 ∉ ['#', '?'] → ∀ l ∈ p.2,
        lineDotIndex l = .ok 0 ∨ lineDotIndex l = .ok 1 := by
      intro p hp _ l hl
      simp only [List.mem_singleton] at hp
      subst hp
      exact Or.inl (h l hl)
    have hmain := (parseModifiedGo_counts [('1', ls)] ['#', '?'] (0, 0) hall)
    have hc0 : cntDot ['#', '?'] 0 [('1', ls)] = ls.length := by
      simp only [cntDot]
      rw [if_neg (by decide)]
      rw [List.countP_eq_length.mpr (fun l hl => by simp [h l hl])]
      simp
    have hc1 : cntDot ['#', '?'] 1 [('1', ls)] = 0 := by
      simp only [cntDot]
      rw [if_neg (by decide)]
      rw [List.countP_eq_zero.mpr (fun l hl => by simp [h l hl])]
    rw [parse_modified, hmain, hc0, hc1]
    simp
  · intro pre l hpre hl
    have herr := linesDotIndices_append_error l .indexError hl pre
      (fun p hp => (hpre p hp).elim (fun h => ⟨0, h⟩) (fun h => ⟨1, h⟩))
    simp [parse_modified, parseModifiedGo, herr]

/-- Witness for C3's amended theorem: a single `..` line yields counts
`(1, 0)` (one modified, zero staged after the caller's unpacking), and a
one-token line aborts with `IndexError`. -/
theorem C3_malformed_lines_witness :
    parse_modified [('1', [chars "1 .. f"])] = .ok (1, 0)
    ∧ parse_modified [('1', [chars "1 M. f"] ++ [chars "1"])] = .error .indexError :=
  ⟨C3_malformed_lines.1 [chars "1 .. f"] (by decide),
   C3_malformed_lines.2 [chars "1 M. f"] (chars "1") (by decide) (by decide)⟩

/-- Counterexample to C3 as stated: a `..` line is not skipped — the
end-to-end parse reports it as one modified entry (fourth component) —
and a single-token line does not leave the parse intact: the whole parse
fails with an `IndexError` (the returned tuple is
`(branch, untracked, staged, modified, ahead, behind)`). -/
theorem C3_malformed_lines_cex :
    parse_git_response (chars "# branch.head main\n1 .. f")
      = .ok (chars "main", 0, 0, 1, 0, 0)
    ∧ parse_git_response (chars "# branch.head main\n1") = .error .indexError := by
  constructor <;> decide

/-- C2 (amended): with tilde-collapsing enabled, the truncator's home
step is exactly `re.sub(HOME, "~", path)` applied before the piece
truncation, and — modelled for home values free of regex metacharacters
and not containing `'~'` — this replaces every (leftmost-first,
non-overlapping) occurrence of the home string anywhere in the path, not
only the first: no occurrence of the home string survives in the
substituted path. (The original "first occurrence only" claim is refuted
by the counterexample, where a second occurrence is also replaced.) -/
theorem C2_home_substitution (path home : List Char) (n_full : Int)
    (hhome : home ≠ []) (htld : '~' ∉ home) :
    truncated_path path (some home) true n_full
      = truncated_path (reSub home ['~'] path) (some home) false n_full
    ∧ occursIn home (reSub home ['~'] path) = false := by
  constructor
  · rfl
  · simp only [reSub]
    exact occursIn_reSubGo (path.length + 1) path home (by omega) hhome htld

/-- Witness for C2's amended theorem at `HOME = /home/u` on
`/home/u/docs`. -/
theorem C2_home_substitution_witness :
    truncated_path (chars "/home/u/docs") (some (chars "/home/u")) true 1
      = truncated_path (reSub (chars "/home/u") ['~'] (chars "/home/u/docs"))
          (some (chars "/home/u")) false 1
    ∧ occursIn (chars "/home/u") (reSub (chars "/home/u") ['~'] (chars "/home/u/docs"))
        = false :=
  C2_home_substitution (chars "/home/u/docs") (chars "/home/u") 1 (by decide) (by decide)

/-- Counterexample to C2 as stated: with `HOME = /home/u` the path
`/home/u/x/home/u` becomes `~/x~` — the second occurrence is replaced
too — whereas replacing only the first occurrence would give
`~/x/home/u`. -/
theorem C2_home_substitution_cex :
    truncated_path (chars "/home/u/x/home/u") (some (chars "/home/u")) true 3
      = .ok (chars "~/x~")
    ∧ chars "~/x~" ≠ chars "~/x/home/u" := by
  constructor <;> decide

end ShellUtilities
